import Mathlib

/-!
Verification development for the Director projector extractor (shock.py).

The source program is embedded shallowly: the `EndianReader` class becomes a
record with explicit state passing, byte buffers become `List Nat` (each
element a byte value), Python exceptions become `Option`/`none`, and the
external text codecs and zlib are abstracted as function parameters where the
program calls into them.
-/

namespace Shock

/-- Endianness flag of the reader: `""` unknown, `"<"` little, `">"` big. -/
inductive Endian where
  | little : Endian
  | big : Endian
  | unknown : Endian
deriving DecidableEq, Repr

/-- Little-endian value of a byte list (least significant byte first).
Each element is reduced mod 256, matching the byte range of Python `bytes`. -/
def decodeLE : List Nat → Nat
  | [] => 0
  | b :: bs => b % 256 + 256 * decodeLE bs

/-- Integer value of a byte list under the given endianness.  An unknown
endianness corresponds to `struct`'s native byte order, assumed little-endian. -/
def decodeBytes (e : Endian) (bs : List Nat) : Nat :=
  match e with
  | .big => decodeLE bs.reverse
  | _ => decodeLE bs

/-- 4-byte encoding of a value under the given endianness (`struct.pack`). -/
def encode32 (e : Endian) (v : Nat) : List Nat :=
  match e with
  | .big => [v / 16777216 % 256, v / 65536 % 256, v / 256 % 256, v % 256]
  | _ => [v % 256, v / 256 % 256, v / 65536 % 256, v / 16777216 % 256]

/-- State of the `EndianReader(BytesIO)` object: buffer, cursor, endianness. -/
structure EndianReader where
  data : List Nat
  pos : Nat
  endian : Endian
deriving DecidableEq, Repr

/-- `BytesIO.read(n)` for `n ≥ 0`: returns up to `n` bytes from the cursor and
advances the cursor by the number of bytes actually read. -/
def readN (t : EndianReader) (n : Nat) : List Nat × EndianReader :=
  let bs := (t.data.drop t.pos).take n
  (bs, { t with pos := t.pos + bs.length })

/-- `BytesIO.read(n)` for a possibly negative `n`: a negative count reads all
remaining bytes. -/
def readSigned (t : EndianReader) (n : Int) : List Nat × EndianReader :=
  if n < 0 then
    let bs := t.data.drop t.pos
    (bs, { t with pos := t.pos + bs.length })
  else readN t n.toNat

/-- `seek(p)` with a nonnegative absolute position. -/
def seekAbs (t : EndianReader) (p : Nat) : EndianReader := { t with pos := p }

/-- `seek(p)` with an arbitrary integer position: negative raises `ValueError`. -/
def seekTo (t : EndianReader) (p : Int) : Option EndianReader :=
  if p < 0 then none else some { t with pos := p.toNat }

/-- `seek(k, 1)`: relative to the current position. -/
def seekRel (t : EndianReader) (k : Int) : Option EndianReader :=
  seekTo t ((t.pos : Int) + k)

/-- `seek(k, 2)`: relative to the end of the buffer. -/
def seekFromEnd (t : EndianReader) (k : Int) : Option EndianReader :=
  seekTo t ((t.data.length : Int) + k)

/-- `read_ident`: reads 4 bytes and sets the endianness when the signature is
one of `XFIR`/`FFIR` (little) or `RIFX`/`RIFF` (big); otherwise leaves it. -/
def read_ident (t : EndianReader) : Endian × EndianReader :=
  let (signature, t1) := readN t 4
  let e1 := if signature = [88, 70, 73, 82] ∨ signature = [70, 70, 73, 82]
    then Endian.little else t.endian
  let e2 := if signature = [82, 73, 70, 88] ∨ signature = [82, 73, 70, 70]
    then Endian.big else e1
  (e2, { t1 with endian := e2 })

/-- `read_tag`: reads 4 bytes, reverses them under little endianness and
decodes them as ASCII; a byte above 127 raises `UnicodeDecodeError`. -/
def read_tag (t : EndianReader) : Option (List Nat × EndianReader) :=
  let (tag0, t1) := readN t 4
  let tag := if t.endian = Endian.little then tag0.reverse else tag0
  if tag.all (fun b => b < 128) then some (tag, t1) else none

/-- `read_i16`: unsigned 16-bit integer; `struct.unpack` raises on a short read. -/
def read_i16 (t : EndianReader) : Option (Nat × EndianReader) :=
  let (bs, t1) := readN t 2
  if bs.length = 2 then some (decodeBytes t.endian bs, t1) else none

/-- `read_i32`: unsigned 32-bit integer; `struct.unpack` raises on a short read. -/
def read_i32 (t : EndianReader) : Option (Nat × EndianReader) :=
  let (bs, t1) := readN t 4
  if bs.length = 4 then some (decodeBytes t.endian bs, t1) else none

/-- `BytesIO.write` of a byte string at position `p`: overwrites in place,
zero-filling any gap between the end of the buffer and `p`. -/
def writeAt (d : List Nat) (p : Nat) (bs : List Nat) : List Nat :=
  d.take p ++ List.replicate (p - d.length) 0 ++ bs ++ d.drop (p + bs.length)

/-- `write_i32`: packs an integer as an unsigned 32-bit value and writes it at
the cursor; `struct.pack` raises if the value is out of range. -/
def write_i32 (t : EndianReader) (v : Int) : Option EndianReader :=
  if 0 ≤ v ∧ v < 4294967296 then
    some { t with data := writeAt t.data t.pos (encode32 t.endian v.toNat),
                  pos := t.pos + 4 }
  else none

/-- Byte window of length `n` starting at position `p`. -/
def slice (d : List Nat) (p n : Nat) : List Nat := (d.drop p).take n

/-- Codepoint list of a string literal, for writing byte/text constants. -/
def s2c (s : String) : List Nat := s.toList.map Char.toNat

/-- A UTF-8 continuation byte. -/
def isCont (b : Nat) : Bool := 128 ≤ b && b ≤ 191

/-- Strict UTF-8 decoding of a byte list into codepoints, as performed by
`bytes.decode("utf-8")`: rejects overlong forms, surrogates and values above
U+10FFFF; `none` models `UnicodeDecodeError`. -/
def utf8Decode : List Nat → Option (List Nat)
  | [] => some []
  | b :: rest =>
    if b < 128 then (utf8Decode rest).map (fun s => b :: s)
    else if 194 ≤ b && b ≤ 223 then
      match rest with
      | c1 :: r =>
        if isCont c1 then
          (utf8Decode r).map (fun s => ((b - 192) * 64 + (c1 - 128)) :: s)
        else none
      | [] => none
    else if 224 ≤ b && b ≤ 239 then
      match rest with
      | c1 :: c2 :: r =>
        let lo1 := if b = 224 then 160 else 128
        let hi1 := if b = 237 then 159 else 191
        if (lo1 ≤ c1 && c1 ≤ hi1) && isCont c2 then
          (utf8Decode r).map
            (fun s => ((b - 224) * 4096 + (c1 - 128) * 64 + (c2 - 128)) :: s)
        else none
      | _ => none
    else if 240 ≤ b && b ≤ 244 then
      match rest with
      | c1 :: c2 :: c3 :: r =>
        let lo1 := if b = 240 then 144 else 128
        let hi1 := if b = 244 then 143 else 191
        if ((lo1 ≤ c1 && c1 ≤ hi1) && isCont c2) && isCont c3 then
          (utf8Decode r).map (fun s =>
            ((b - 240) * 262144 + (c1 - 128) * 4096 + (c2 - 128) * 64
              + (c3 - 128)) :: s)
        else none
      | _ => none
    else none

/-- Codepoint of one byte under code page 1252 (`bytes.decode("cp1252")`):
the five unassigned bytes 0x81, 0x8D, 0x8F, 0x90, 0x9D are decode errors. -/
def cp1252Map (b : Nat) : Option Nat :=
  if b < 128 then some b
  else if b = 128 then some 8364
  else if b = 130 then some 8218
  else if b = 131 then some 402
  else if b = 132 then some 8222
  else if b = 133 then some 8230
  else if b = 134 then some 8224
  else if b = 135 then some 8225
  else if b = 136 then some 710
  else if b = 137 then some 8240
  else if b = 138 then some 352
  else if b = 139 then some 8249
  else if b = 140 then some 338
  else if b = 142 then some 381
  else if b = 145 then some 8216
  else if b = 146 then some 8217
  else if b = 147 then some 8220
  else if b = 148 then some 8221
  else if b = 149 then some 8226
  else if b = 150 then some 8211
  else if b = 151 then some 8212
  else if b = 152 then some 732
  else if b = 153 then some 8482
  else if b = 154 then some 353
  else if b = 155 then some 8250
  else if b = 156 then some 339
  else if b = 158 then some 382
  else if b = 159 then some 376
  else if 160 ≤ b && b ≤ 255 then some b
  else none

/-- `bytes.decode("cp1252")` over a whole byte list. -/
def cp1252Decode (bs : List Nat) : Option (List Nat) := bs.mapM cp1252Map

/-- The name-decoding fallback chain of `parse_dict` (shock.py lines 86-92):
try UTF-8, then cp1252, then Shift-JIS.  The Shift-JIS codec is external to
the program and is passed in as `sjis`; when it too fails the exception is
uncaught, i.e. the overall result is `none` (fatal). -/
def decodeName (sjis : List Nat → Option (List Nat)) (name : List Nat) :
    Option (List Nat) :=
  match utf8Decode name with
  | some s => some s
  | none =>
    match cp1252Decode name with
    | some s => some s
    | none => sjis name

/-- The flip performed by the dictionary endianness self-correction
(`">" if endianness == "<" else "<"`). -/
def flipE (e : Endian) : Endian :=
  if e = Endian.little then Endian.big else Endian.little

/-- The per-name loop of `parse_dict`: reads a 32-bit length, that many name
bytes (asserting the count), pads to a 4-byte boundary, and decodes the name
through the fallback chain. -/
def readNames (sjis : List Nat → Option (List Nat)) :
    Nat → EndianReader → List (List Nat) → Option (List (List Nat))
  | 0, _, acc => some acc
  | k + 1, t, acc => do
    let (name_length, t1) ← read_i32 t
    let (name, t2) := readN t1 name_length
    if name_length = name.length then
      let (_, t3) := readN t2 ((4 - name_length % 4) % 4)
      let decoded ← decodeName sjis name
      readNames sjis k t3 (acc ++ [decoded])
    else none

/-- The remainder of `parse_dict` after the table-of-contents length has been
determined (shock.py lines 73-94), under the (possibly corrected) endianness. -/
def parseDictRest (sjis : List Nat → Option (List Nat)) (dict_data : List Nat)
    (e : Endian) (toc_length : Nat) : Option (List (List Nat)) :=
  let t : EndianReader := { data := dict_data.drop 8, pos := 4, endian := e }
  do
    let (len_names, t1) ← read_i32 (seekAbs t 0x10)
    let (_, t2) := readN (seekAbs t1 0x18) toc_length
    let (unk1, t3) ← read_i16 t2
    let (_, t4) := readSigned t3 ((unk1 : Int) - 0x12)
    readNames sjis len_names t4 []

/-- `parse_dict`: skips the 8-byte resource header, reads the TOC length and,
when it exceeds 0x10000, flips the endianness and re-reads it from the start
of the stream before decoding the rest of the blob. -/
def parse_dict (sjis : List Nat → Option (List Nat)) (dict_data : List Nat)
    (endianness : Endian) : Option (List (List Nat)) :=
  let t : EndianReader := { data := dict_data.drop 8, pos := 0,
                            endian := endianness }
  do
    let (toc_length, t1) ← read_i32 t
    if toc_length > 0x10000 then
      let t2 := seekAbs { t1 with endian := flipE endianness } 0
      let (toc1, _) ← read_i32 t2
      parseDictRest sjis dict_data (flipE endianness) toc1
    else
      parseDictRest sjis dict_data endianness toc_length

/-- One record of the parent resource-map walk (shock.py lines 144-151):
seek to the record, read tag, size and stored offset, add 8 to the size, and
subtract the relocation base from the stored offset when it is nonzero. -/
def readRecord (rel : Nat) (t : EndianReader) (pos : Nat) :
    Option (List Nat × Nat × Int × EndianReader) := do
  let (tag, t1) ← read_tag (seekAbs t pos)
  let (size0, t2) ← read_i32 t1
  let (chunk_offset0, t3) ← read_i32 t2
  let size := size0 + 8
  let chunk_offset : Int :=
    if chunk_offset0 ≠ 0 then (chunk_offset0 : Int) - rel else chunk_offset0
  pure (tag, size, chunk_offset, t3)

/-- The map-walk loop of `main` (shock.py lines 143-156): accumulates
`(offset, size)` pairs for records tagged File and decodes the dictionary for
records tagged Dict (a later Dict replaces the name list). -/
def walkLoop (sjis : List Nat → Option (List Nat)) (rel stride : Nat) :
    Nat → Nat → EndianReader → List (List Nat) → List (Int × Nat) →
    Option (List (List Nat) × List (Int × Nat))
  | 0, _, _, names, files => some (names, files)
  | k + 1, i, t, names, files => do
    let (tag, size, chunk_offset, t1) ← readRecord rel t (0x4C + i * stride)
    if tag = s2c ("File") then
      walkLoop sjis rel stride k (i + 1) t1 names (files ++ [(chunk_offset, size)])
    else if tag = s2c ("Dict") then do
      let t2 ← seekTo t1 chunk_offset
      let (blob, t3) := readN t2 size
      let nms ← parse_dict sjis blob t.endian
      walkLoop sjis rel stride k (i + 1) t3 nms files
    else
      walkLoop sjis rel stride k (i + 1) t1 names files

/-- The archive walk of `main` starting from the located archive base
(shock.py lines 121-156): identify the byte order, check the imap and mmap
tags, read the record stride, record count and relocation base, and walk the
map collecting names and File entries.  Assertion failures are `none`. -/
def mainWalk (sjis : List Nat → Option (List Nat)) (data : List Nat) :
    Option (List (List Nat) × List (Int × Nat)) :=
  let t0 : EndianReader := { data := data, pos := 0, endian := Endian.unknown }
  let (_, t) := read_ident t0
  do
    let (tg1, t1) ← read_tag (seekAbs t 0xC)
    if tg1 = s2c ("imap") then do
      let t2 ← seekRel t1 8
      let (tg2, t3) ← read_tag (seekAbs t2 0x2C)
      if tg2 = s2c ("mmap") then do
        let (mmap_res_len, t4) ← read_i16 (seekAbs t3 (0x2C + 0xA))
        let (mmap_res_count, t5) ← read_i32 (seekAbs t4 (0x2C + 0x10))
        let (rel, t6) ← read_i32 (seekAbs t5 (0x4C + 8))
        walkLoop sjis rel mmap_res_len mmap_res_count 0 t6 [] []
      else none
    else none

/-- `file_table = zip(names, files)` (shock.py line 158): positional pairing
of decoded names with File entries. -/
def file_table (names : List (List Nat)) (files : List (Int × Nat)) :
    List (List Nat × Int × Nat) := names.zip files

/-- The walk followed by the positional pairing. -/
def mainPairs (sjis : List Nat → Option (List Nat)) (data : List Nat) :
    Option (List (List Nat × Int × Nat)) :=
  (mainWalk sjis data).map (fun r => file_table r.1 r.2)

/-- Extraction of one sub-file (shock.py lines 171-177): the advisory size in
the File pair is discarded; the true byte count is the 32-bit field 4 bytes
into the sub-file's own header, plus 8, re-read from the original offset. -/
def extractFile (t : EndianReader) (file : Int × Nat) : Option (List Nat) :=
  let (offset, _) := file
  do
    let t1 ← seekTo t (offset + 4)
    let (sz, t2) ← read_i32 t1
    let size := sz + 8
    let t3 ← seekTo t2 offset
    pure (readN t3 size).1

/-- The classification read of an extracted sub-file (shock.py lines 178-180):
re-detect the sub-file's own endianness, then read the type tag at offset 8. -/
def subfileType (bytes : List Nat) : Option (List Nat) :=
  let t0 : EndianReader := { data := bytes, pos := 0, endian := Endian.unknown }
  let (_, t1) := read_ident t0
  do
    let (tg, _) ← read_tag (seekAbs t1 8)
    pure tg

/-- The chunk-scanning loop of the Xtra branch (shock.py lines 212-224),
with explicit fuel (each successful iteration consumes at least 8 bytes, so
the buffer length bounds the number of iterations). -/
def xtraLoop : Nat → EndianReader → List Nat → Nat →
    Option (EndianReader × Nat)
  | 0, _, _, _ => none
  | fuel + 1, t, tag, size =>
    if tag = s2c ("XTdf") ∨ tag = s2c ("FILE") then some (t, size)
    else
      let ts := if tag = s2c ("Xinf") then ((readN t size).2, 0) else (t, size)
      let t1 := (readN ts.1 ts.2).2
      do
        let (tag1, t2) ← read_tag t1
        let (size0, t3) ← read_i32 t2
        let size1 := size0 + size0 % 2
        let t4 := if tag1 = s2c ("FILE") then (readN t3 0x1C).2 else t3
        xtraLoop fuel t4 tag1 size1

/-- The inner-map relocation loop of the movie-rebase path (shock.py lines
242-249): for each record read the stored offset at `0x68 + i * stride`; when
it is nonzero subtract the relocation base and write the result back in place. -/
def rebaseLoop (mmap_res_len relative : Nat) :
    Nat → Nat → EndianReader → Option EndianReader
  | 0, _, t => some t
  | k + 1, i, t => do
    let pos := 0x68 + i * mmap_res_len
    let (absolute, t1) ← read_i32 (seekAbs t pos)
    if absolute ≠ 0 then do
      let t2 ← write_i32 (seekAbs t1 pos) ((absolute : Int) - relative)
      rebaseLoop mmap_res_len relative k (i + 1) t2
    else rebaseLoop mmap_res_len relative k (i + 1) t1

/-- The movie-rebase path (shock.py lines 233-254): read the internal record
stride, record count and relocation base, overwrite the pointer-to-map field
at 0x18 with the standard map position 0x2C, relocate every internal record,
and zero the final 4 bytes unless they are already zero. -/
def rebase (t : EndianReader) : Option EndianReader := do
  let (mmap_res_len, t1) ← read_i16 (seekAbs t 0x36)
  let (cnt, t2) ← read_i32 (seekAbs t1 0x3C)
  let mmap_res := cnt - 1
  let (relative, t3) ← read_i32 (seekAbs t2 0x54)
  let t4 ← write_i32 (seekAbs t3 0x18) 0x2C
  let t5 ← rebaseLoop mmap_res_len relative mmap_res 0 t4
  let t6 ← seekFromEnd t5 (-4)
  let (last4, t7) := readN t6 4
  if last4 = [0, 0, 0, 0] then pure t7
  else do
    let t8 ← seekFromEnd t7 (-4)
    write_i32 t8 0

/-- Per-sub-file processing after extraction (shock.py lines 178-263): the
classification dispatch.  FGDM/FGDC sub-files are written unchanged; Xtra
sub-files are scanned and their payload decompressed through the external
`inflate` (zlib); everything else takes the movie-rebase path.  The result is
the bytes written for the sub-file, or `none` when no file is produced. -/
def processSubfile (inflate : List Nat → Option (List Nat))
    (bytes : List Nat) : Option (Option (List Nat)) :=
  let t0 : EndianReader := { data := bytes, pos := 0, endian := Endian.unknown }
  let (_, t1) := read_ident t0
  do
    let (file_type, t3) ← read_tag (seekAbs t1 8)
    if file_type ∈ [s2c ("FGDM"), s2c ("FGDC")] then
      pure (some bytes)
    else if file_type = s2c ("Xtra") then
      let pos := t3.pos
      let (b, t4) := readN t3 1
      let t5 := if b ≠ [0] then seekAbs t4 pos else t4
      do
        let (t6, size) ← xtraLoop (bytes.length + 1) t5 [] 0
        if size ≠ 0 then do
          let out ← inflate (readN t6 size).1
          pure (some out)
        else pure none
    else do
      let t' ← rebase t3
      pure (some t'.data)

/-- `str.lower`, exact for strings of ASCII codepoints only: non-ASCII case
conversion is outside this model, so theorems evaluating it do so only on
ASCII inputs, where it coincides with Python. -/
def asciiLower (xs : List Nat) : List Nat :=
  xs.map (fun c => if 65 ≤ c ∧ c ≤ 90 then c + 32 else c)

/-- `str.upper`, exact for strings of ASCII codepoints only (see
`asciiLower`). -/
def asciiUpper (xs : List Nat) : List Nat :=
  xs.map (fun c => if 97 ≤ c ∧ c ≤ 122 then c - 32 else c)

/-- `str.isupper` — at least one cased character and no lowercase character —
exact for strings of ASCII codepoints only: non-ASCII cased characters are
outside this model, so theorems relying on it carry an ASCII hypothesis on
the characters it inspects. -/
def pyIsUpper (xs : List Nat) : Bool :=
  xs.any (fun c => 65 ≤ c && c ≤ 90) && xs.all (fun c => !(97 ≤ c && c ≤ 122))

/-- The `extension_mapping` dictionary (shock.py lines 182-185). -/
def extension_mapping (e : List Nat) : Option (List Nat × List Nat) :=
  if e = s2c (".dir") then some (s2c (".dxr"), s2c (".dcr"))
  else if e = s2c (".cst") then some (s2c (".cxt"), s2c (".cct"))
  else none

/-- The output-name derivation (shock.py lines 186-200) applied to the
path-stripped name: take the final four characters as the extension when they
start with a period (defaulting to ".dir" otherwise), remap it by the
sub-file type, preserve an all-uppercase tail, and replace "/" with "_".
Indexing `output_name[-4]` on a name shorter than 4 raises `IndexError`,
modelled as `none`. -/
def deriveOutputName (name fileType : List Nat) : Option (List Nat) :=
  if name.length < 4 then none
  else
    let last4 := name.drop (name.length - 4)
    let ext0 := if name.getD (name.length - 4) 0 = 46 then asciiLower last4
      else s2c (".dir")
    let ext1 :=
      match extension_mapping ext0 with
      | some m =>
        let e1 := if fileType = s2c ("MV93") then m.1
          else if fileType = s2c ("FGDM") then m.2
          else ext0
        if pyIsUpper last4 then asciiUpper e1 else e1
      | none => ext0
    some ((name.take (name.length - 4) ++ ext1).map
      (fun c => if c = 47 then 95 else c))

/-- A stand-in for the external Shift-JIS codec that always fails, used to
instantiate `sjis` at concrete inputs whose names decode earlier in the chain. -/
def sjisNone : List Nat → Option (List Nat) := fun _ => none

/-- A synthetic little-endian archive: XFIR signature, imap tag at 0xC, mmap
tag at 0x2C with stride 20 and 3 records (the relocation slot, one Dict whose
dictionary holds the two names "a" and "b", and one File), relocation base 0.
Its dictionary yields 2 names while the map walk yields 1 File entry. -/
def testArchive : List Nat :=
  [88, 70, 73, 82] ++ List.replicate 8 0 ++
  [112, 97, 109, 105] ++ List.replicate 28 0 ++
  [112, 97, 109, 109] ++ List.replicate 6 0 ++
  [20, 0] ++ List.replicate 4 0 ++
  [3, 0, 0, 0] ++ List.replicate 12 0 ++
  [101, 101, 114, 102] ++ List.replicate 16 0 ++
  [116, 99, 105, 68, 46, 0, 0, 0, 136, 0, 0, 0] ++ List.replicate 8 0 ++
  [101, 108, 105, 70, 0, 0, 0, 0, 0, 1, 0, 0] ++ List.replicate 8 0 ++
  List.replicate 8 0 ++
  [4, 0, 0, 0] ++ List.replicate 12 0 ++
  [2, 0, 0, 0] ++ List.replicate 8 0 ++
  [18, 0] ++
  [1, 0, 0, 0, 97, 0, 0, 0] ++
  [1, 0, 0, 0, 98, 0, 0, 0]

/-- A synthetic little-endian movie sub-file of 116 bytes: internal record
stride 4 at offset 0x36, record count 2 at 0x3C (one relocatable record),
relocation base 16 at 0x54, one stored offset 48 at 0x68, and a nonzero
final 4 bytes. -/
def testMovie : List Nat :=
  [88, 70, 73, 82] ++ List.replicate 50 0 ++
  [4, 0] ++ List.replicate 4 0 ++
  [2, 0, 0, 0] ++ List.replicate 20 0 ++
  [16, 0, 0, 0] ++ List.replicate 16 0 ++
  [48, 0, 0, 0] ++ [0, 0, 0, 0] ++ [1, 0, 0, 0]

/-- A synthetic dictionary blob whose TOC length reads as 0x20000 under
little endianness and as 0x200 under big endianness. -/
def testDict : List Nat :=
  List.replicate 8 0 ++ [0, 0, 2, 0] ++ List.replicate 60 0

/-- A minimal sub-file whose type tag reads as FGDM: XFIR signature and the
byte-reversed tag at offset 8. -/
def testFgdm : List Nat := [88, 70, 73, 82, 0, 0, 0, 0, 77, 68, 71, 70]

theorem decodeLE_lt (bs : List Nat) : decodeLE bs < 256 ^ bs.length := by
  induction bs with
  | nil => simp [decodeLE]
  | cons b bs ih =>
    have h1 : b % 256 < 256 := Nat.mod_lt _ (by norm_num)
    have : 256 * decodeLE bs + 256 ≤ 256 * 256 ^ bs.length := by omega
    simpa [decodeLE, pow_succ, Nat.mul_comm] using by omega

theorem decodeBytes_lt (e : Endian) (bs : List Nat) :
    decodeBytes e bs < 256 ^ bs.length := by
  cases e
  · exact decodeLE_lt bs
  · simpa [decodeBytes] using decodeLE_lt bs.reverse
  · exact decodeLE_lt bs

theorem slice_length (d : List Nat) (p n : Nat) :
    (slice d p n).length = min n (d.length - p) := by
  simp [slice]

theorem decodeBytes_slice_lt (e : Endian) (d : List Nat) (p : Nat) :
    decodeBytes e (slice d p 4) < 4294967296 := by
  have h := decodeBytes_lt e (slice d p 4)
  have h2 : (slice d p 4).length ≤ 4 := by
    rw [slice_length]; omega
  calc decodeBytes e (slice d p 4) < 256 ^ (slice d p 4).length := h
    _ ≤ 256 ^ 4 := Nat.pow_le_pow_right (by norm_num) h2
    _ = 4294967296 := by norm_num

theorem decode_encode32 (e : Endian) (v : Nat) (h : v < 4294967296) :
    decodeBytes e (encode32 e v) = v := by
  cases e <;> simp [decodeBytes, encode32, decodeLE] <;> omega

theorem encode32_length (e : Endian) (v : Nat) : (encode32 e v).length = 4 := by
  cases e <;> rfl

theorem encode32_zero (e : Endian) : encode32 e 0 = [0, 0, 0, 0] := by
  cases e <;> rfl

theorem writeAt_length (d : List Nat) (p : Nat) (bs : List Nat)
    (hp : p + bs.length ≤ d.length) : (writeAt d p bs).length = d.length := by
  simp [writeAt]
  omega

theorem writeAt_inplace (d : List Nat) (p : Nat) (bs : List Nat)
    (hp : p ≤ d.length) :
    writeAt d p bs = d.take p ++ (bs ++ d.drop (p + bs.length)) := by
  have hR : p - d.length = 0 := by omega
  rw [writeAt, hR]
  simp [List.append_assoc]

theorem getElem?_writeAt_of_lt (d : List Nat) (p : Nat) (bs : List Nat)
    (hp : p ≤ d.length) (q : Nat) (hq : q < p) :
    (writeAt d p bs)[q]? = d[q]? := by
  have hT : (d.take p).length = p := by simp; omega
  rw [writeAt_inplace d p bs hp]
  simp [List.getElem?_append, hT, hq, List.getElem?_take]

theorem getElem?_writeAt_of_ge (d : List Nat) (p : Nat) (bs : List Nat)
    (hp : p ≤ d.length) (q : Nat) (hq : p + bs.length ≤ q) :
    (writeAt d p bs)[q]? = d[q]? := by
  have hT : (d.take p).length = p := by simp; omega
  rw [writeAt_inplace d p bs hp]
  rw [List.getElem?_append_right (by rw [hT]; omega)]
  rw [hT, List.getElem?_append_right (by omega : bs.length ≤ q - p)]
  rw [List.getElem?_drop]
  congr 1
  omega

theorem getElem?_writeAt_mid (d : List Nat) (p : Nat) (bs : List Nat)
    (hp : p ≤ d.length) (q : Nat) (hq1 : p ≤ q) (hq2 : q < p + bs.length) :
    (writeAt d p bs)[q]? = bs[q - p]? := by
  have hT : (d.take p).length = p := by simp; omega
  rw [writeAt_inplace d p bs hp]
  rw [List.getElem?_append_right (by rw [hT]; omega)]
  rw [hT, List.getElem?_append]
  simp [show q - p < bs.length by omega]

theorem slice_eq_slice_of_pointwise (d d' : List Nat) (p n : Nat)
    (h : ∀ m, m < n → d'[p + m]? = d[p + m]?) :
    slice d' p n = slice d p n := by
  apply List.ext_getElem?
  intro m
  simp only [slice, List.getElem?_take, List.getElem?_drop]
  by_cases hm : m < n
  · simp [hm, h m hm]
  · simp [hm]

theorem slice_writeAt_self (d : List Nat) (p : Nat) (bs : List Nat)
    (hp : p + bs.length ≤ d.length) :
    slice (writeAt d p bs) p bs.length = bs := by
  apply List.ext_getElem?
  intro m
  simp only [slice, List.getElem?_take, List.getElem?_drop]
  by_cases hm : m < bs.length
  · rw [if_pos hm, getElem?_writeAt_mid d p bs (by omega) (p + m) (by omega)
      (by omega)]
    congr 1
    omega
  · rw [if_neg hm, eq_comm, List.getElem?_eq_none]
    omega

theorem slice_writeAt_disjoint (d : List Nat) (p : Nat) (bs : List Nat)
    (hp : p ≤ d.length) (q n : Nat) (hdisj : q + n ≤ p ∨ p + bs.length ≤ q) :
    slice (writeAt d p bs) q n = slice d q n := by
  apply slice_eq_slice_of_pointwise
  intro m hm
  rcases hdisj with h | h
  · exact getElem?_writeAt_of_lt d p bs hp _ (by omega)
  · exact getElem?_writeAt_of_ge d p bs hp _ (by omega)

theorem read_i32_eq (t : EndianReader) (h : t.pos + 4 ≤ t.data.length) :
    read_i32 t = some (decodeBytes t.endian (slice t.data t.pos 4),
      { t with pos := t.pos + 4 }) := by
  have hl : (slice t.data t.pos 4).length = 4 := by
    rw [slice_length]; omega
  simp only [read_i32, readN]
  rw [show (t.data.drop t.pos).take 4 = slice t.data t.pos 4 from rfl, hl]
  simp

theorem read_i16_eq (t : EndianReader) (h : t.pos + 2 ≤ t.data.length) :
    read_i16 t = some (decodeBytes t.endian (slice t.data t.pos 2),
      { t with pos := t.pos + 2 }) := by
  have hl : (slice t.data t.pos 2).length = 2 := by
    rw [slice_length]; omega
  simp only [read_i16, readN]
  rw [show (t.data.drop t.pos).take 2 = slice t.data t.pos 2 from rfl, hl]
  simp

theorem read_i32_none (t : EndianReader) (h : t.data.length < t.pos + 4) :
    read_i32 t = none := by
  have hl : (slice t.data t.pos 4).length ≠ 4 := by
    rw [slice_length]; omega
  simp only [read_i32, readN]
  rw [show (t.data.drop t.pos).take 4 = slice t.data t.pos 4 from rfl]
  simp [hl]

theorem write_i32_eq (t : EndianReader) (v : Int) (h0 : 0 ≤ v)
    (h1 : v < 4294967296) :
    write_i32 t v = some { t with
      data := writeAt t.data t.pos (encode32 t.endian v.toNat),
      pos := t.pos + 4 } := by
  simp [write_i32, h0, h1]

theorem write_i32_none (t : EndianReader) (v : Int) (h : v < 0) :
    write_i32 t v = none := by
  have hc : ¬ (0 ≤ v ∧ v < 4294967296) := by omega
  simp [write_i32, hc]

/-- The tag bytes read at the current position (before ASCII validation). -/
def tagBytesAt (t : EndianReader) : List Nat :=
  if t.endian = Endian.little then (slice t.data t.pos 4).reverse
  else slice t.data t.pos 4

theorem read_tag_eq (t : EndianReader) (h : t.pos + 4 ≤ t.data.length)
    (hall : (tagBytesAt t).all (fun b => b < 128) = true) :
    read_tag t = some (tagBytesAt t, { t with pos := t.pos + 4 }) := by
  have hl : (slice t.data t.pos 4).length = 4 := by
    rw [slice_length]; omega
  simp only [read_tag, readN]
  rw [show (t.data.drop t.pos).take 4 = slice t.data t.pos 4 from rfl, hl]
  simp only [tagBytesAt] at hall
  rw [if_pos hall]
  rfl

theorem read_tag_none (t : EndianReader)
    (hall : ¬ (tagBytesAt t).all (fun b => b < 128) = true) :
    read_tag t = none := by
  simp only [read_tag, readN]
  rw [show (t.data.drop t.pos).take 4 = slice t.data t.pos 4 from rfl]
  simp only [tagBytesAt] at hall
  rw [if_neg hall]

theorem rebaseLoop_some (stride rel : Nat) (hstride : 4 ≤ stride) :
    ∀ (k i : Nat) (t t' : EndianReader),
    rebaseLoop stride rel k i t = some t' →
    t'.endian = t.endian ∧ t'.data.length = t.data.length ∧
    (∀ j, j < k →
      0x68 + (i + j) * stride + 4 ≤ t.data.length ∧
      slice t'.data (0x68 + (i + j) * stride) 4 =
        (if decodeBytes t.endian (slice t.data (0x68 + (i + j) * stride) 4) = 0
         then slice t.data (0x68 + (i + j) * stride) 4
         else encode32 t.endian
           (decodeBytes t.endian (slice t.data (0x68 + (i + j) * stride) 4)
             - rel))) ∧
    (∀ q, (∀ j, j < k → q < 0x68 + (i + j) * stride ∨
        0x68 + (i + j) * stride + 4 ≤ q) →
      t'.data[q]? = t.data[q]?) := by
  intro k
  induction k with
  | zero =>
    intro i t t' hloop
    simp only [rebaseLoop] at hloop
    cases hloop
    exact ⟨rfl, rfl, fun j hj => absurd hj (by omega), fun q _ => rfl⟩
  | succ k ih =>
    intro i t t' hloop
    simp only [rebaseLoop] at hloop
    by_cases hpos : 0x68 + i * stride + 4 ≤ t.data.length
    case neg =>
      rw [read_i32_none (seekAbs t (0x68 + i * stride))
        (by simp [seekAbs]; omega)] at hloop
      simp at hloop
    case pos =>
      rw [read_i32_eq (seekAbs t (0x68 + i * stride))
        (by simp [seekAbs]; omega)] at hloop
      simp only [seekAbs, Option.bind_eq_bind, Option.some_bind] at hloop
      by_cases hvz :
          decodeBytes t.endian (slice t.data (0x68 + i * stride) 4) = 0
      case pos =>
        rw [if_neg (by simpa using hvz)] at hloop
        obtain ⟨he, hlen, hfields, hframe⟩ := ih (i + 1) _ t' hloop
        dsimp only at he hlen hfields hframe
        refine ⟨he, hlen, ?_, ?_⟩
        · intro j hj
          match j with
          | 0 =>
            simp only [Nat.add_zero]
            refine ⟨by omega, ?_⟩
            rw [if_pos (by simpa using hvz)]
            apply slice_eq_slice_of_pointwise
            intro m hm
            apply hframe
            intro j' hj'
            left
            have : 0x68 + (i + 1) * stride ≤ 0x68 + (i + 1 + j') * stride :=
              by
                have : (i + 1) * stride ≤ (i + 1 + j') * stride :=
                  Nat.mul_le_mul_right _ (by omega)
                omega
            have hss : 0x68 + i * stride + 4 ≤ 0x68 + (i + 1) * stride := by
              have : i * stride + stride = (i + 1) * stride := by ring
              omega
            omega
          | j'' + 1 =>
            have hidx : i + 1 + j'' = i + (j'' + 1) := by omega
            have h := hfields j'' (by omega)
            rw [hidx] at h
            exact h
        · intro q hq
          have h0 := hq 0 (by omega)
          rw [hframe q ?_]
          intro j' hj'
          have h := hq (j' + 1) (by omega)
          have hidx : i + (j' + 1) = i + 1 + j' := by omega
          rw [hidx] at h
          exact h
      case neg =>
        rw [if_pos (by simpa using hvz)] at hloop
        set v := decodeBytes t.endian (slice t.data (0x68 + i * stride) 4)
          with hvdef
        by_cases hrel : (v : Int) - rel < 0
        case pos =>
          rw [write_i32_none _ _ hrel] at hloop
          simp at hloop
        case neg =>
          have hvlt : v < 4294967296 := decodeBytes_slice_lt _ _ _
          have hle : rel ≤ v := by omega
          rw [write_i32_eq _ _ (by omega) (by omega)] at hloop
          simp only [seekAbs, Option.bind_eq_bind, Option.some_bind] at hloop
          have htn : ((v : Int) - rel).toNat = v - rel := by omega
          rw [htn] at hloop
          have henc : (encode32 t.endian (v - rel)).length = 4 :=
            encode32_length _ _
          have hwlen : (writeAt t.data (0x68 + i * stride)
              (encode32 t.endian (v - rel))).length = t.data.length := by
            rw [writeAt_length]
            omega
          obtain ⟨he, hlen, hfields, hframe⟩ := ih (i + 1) _ t' hloop
          dsimp only at he hlen hfields hframe
          simp only [hwlen] at hlen
          have hsucc : 0x68 + i * stride + 4 ≤ 0x68 + (i + 1) * stride := by
            have : i * stride + stride = (i + 1) * stride := by ring
            omega
          refine ⟨he, hlen, ?_, ?_⟩
          · intro j hj
            match j with
            | 0 =>
              simp only [Nat.add_zero]
              refine ⟨by omega, ?_⟩
              rw [if_neg (by simpa using hvz)]
              have hmid : slice t'.data (0x68 + i * stride) 4 =
                  slice (writeAt t.data (0x68 + i * stride)
                    (encode32 t.endian (v - rel))) (0x68 + i * stride) 4 := by
                apply slice_eq_slice_of_pointwise
                intro m hm
                apply hframe
                intro j' hj'
                left
                have : 0x68 + (i + 1) * stride ≤ 0x68 + (i + 1 + j') * stride :=
                  by
                    have : (i + 1) * stride ≤ (i + 1 + j') * stride :=
                      Nat.mul_le_mul_right _ (by omega)
                    omega
                omega
              rw [hmid]
              have := slice_writeAt_self t.data (0x68 + i * stride)
                (encode32 t.endian (v - rel)) (by omega)
              rw [henc] at this
              simpa using this
            | j'' + 1 =>
              have hidx : i + 1 + j'' = i + (j'' + 1) := by omega
              have h := hfields j'' (by omega)
              rw [hidx] at h
              have hdisj : slice (writeAt t.data (0x68 + i * stride)
                  (encode32 t.endian (v - rel)))
                  (0x68 + (i + (j'' + 1)) * stride) 4 =
                  slice t.data (0x68 + (i + (j'' + 1)) * stride) 4 := by
                apply slice_writeAt_disjoint _ _ _ (by omega)
                right
                rw [henc]
                have : (i + 1) * stride ≤ (i + (j'' + 1)) * stride :=
                  Nat.mul_le_mul_right _ (by omega)
                omega
              rw [hdisj] at h
              rw [hwlen] at h
              exact h
          · intro q hq
            have h0 := hq 0 (by omega)
            rw [hframe q ?_]
            · simp only [Nat.add_zero] at h0
              rcases h0 with h0 | h0
              · exact getElem?_writeAt_of_lt _ _ _ (by omega) _ h0
              · apply getElem?_writeAt_of_ge _ _ _ (by omega)
                rw [henc]
                omega
            · intro j' hj'
              have h := hq (j' + 1) (by omega)
              have hidx : i + (j' + 1) = i + 1 + j' := by omega
              rw [hidx] at h
              exact h

theorem seekFromEnd_neg4 (t : EndianReader) (h : 4 ≤ t.data.length) :
    seekFromEnd t (-4) = some { t with pos := t.data.length - 4 } := by
  simp only [seekFromEnd, seekTo]
  rw [if_neg (by omega)]
  have htn4 : ((t.data.length : Int) + (-4)).toNat = t.data.length - 4 := by
    omega
  rw [htn4]

theorem rebase_success_shape (t t' : EndianReader) (stride cnt rel : Nat)
    (hs : decodeBytes t.endian (slice t.data 0x36 2) = stride)
    (hc : decodeBytes t.endian (slice t.data 0x3C 4) = cnt)
    (hr : decodeBytes t.endian (slice t.data 0x54 4) = rel)
    (hstride : 4 ≤ stride)
    (hrecs : 0x68 + (cnt - 1) * stride + 8 ≤ t.data.length)
    (hreb : rebase t = some t') :
    t'.data.length = t.data.length ∧
    decodeBytes t.endian (slice t'.data 0x18 4) = 0x2C ∧
    (∀ j, j < cnt - 1 →
      slice t'.data (0x68 + j * stride) 4 =
        (if decodeBytes t.endian (slice t.data (0x68 + j * stride) 4) = 0
         then slice t.data (0x68 + j * stride) 4
         else encode32 t.endian
           (decodeBytes t.endian (slice t.data (0x68 + j * stride) 4) - rel))) ∧
    slice t'.data (t.data.length - 4) 4 = [0, 0, 0, 0] := by
  have hL : 0x70 ≤ t.data.length := by omega
  rw [rebase] at hreb
  rw [read_i16_eq (seekAbs t 0x36) (by dsimp only [seekAbs]; omega)] at hreb
  simp only [Option.bind_eq_bind, Option.some_bind, seekAbs] at hreb
  rw [hs] at hreb
  rw [read_i32_eq { data := t.data, pos := 60, endian := t.endian }
    (by dsimp only; omega)] at hreb
  simp only [Option.bind_eq_bind, Option.some_bind] at hreb
  rw [hc] at hreb
  rw [read_i32_eq { data := t.data, pos := 84, endian := t.endian }
    (by dsimp only; omega)] at hreb
  simp only [Option.bind_eq_bind, Option.some_bind] at hreb
  rw [hr] at hreb
  rw [write_i32_eq { data := t.data, pos := 24, endian := t.endian } 44
    (by norm_num) (by norm_num)] at hreb
  simp only [Option.bind_eq_bind, Option.some_bind] at hreb
  rw [show (44 : Int).toNat = 44 from rfl] at hreb
  have henc44 : (encode32 t.endian 44).length = 4 := encode32_length _ _
  have hd1len : (writeAt t.data 24 (encode32 t.endian 44)).length
      = t.data.length := by
    rw [writeAt_length]
    omega
  cases hl5 : rebaseLoop stride rel (cnt - 1) 0
      { data := writeAt t.data 24 (encode32 t.endian 44), pos := 24 + 4,
        endian := t.endian } with
  | none =>
    rw [hl5] at hreb
    simp at hreb
  | some t5 =>
    rw [hl5] at hreb
    simp only [Option.some_bind] at hreb
    obtain ⟨he5, hlen5, hfields5, hframe5⟩ :=
      rebaseLoop_some stride rel hstride (cnt - 1) 0 _ t5 hl5
    dsimp only at he5 hlen5 hfields5 hframe5
    rw [hd1len] at hlen5
    have hslice24 : slice t5.data 24 4 = encode32 t.endian 44 := by
      have h1 : slice t5.data 24 4 =
          slice (writeAt t.data 24 (encode32 t.endian 44)) 24 4 := by
        apply slice_eq_slice_of_pointwise
        intro m hm
        apply hframe5
        intro j hj
        left
        omega
      have h2 := slice_writeAt_self t.data 24 (encode32 t.endian 44)
        (by omega)
      rw [henc44] at h2
      rw [h1, h2]
    have hfieldsT : ∀ j, j < cnt - 1 →
        slice t5.data (104 + j * stride) 4 =
          (if decodeBytes t.endian (slice t.data (104 + j * stride) 4) = 0
           then slice t.data (104 + j * stride) 4
           else encode32 t.endian
             (decodeBytes t.endian (slice t.data (104 + j * stride) 4)
               - rel)) := by
      intro j hj
      have hf := hfields5 j hj
      simp only [Nat.zero_add] at hf
      have hdj : slice (writeAt t.data 24 (encode32 t.endian 44))
          (104 + j * stride) 4 = slice t.data (104 + j * stride) 4 := by
        apply slice_writeAt_disjoint _ _ _ (by omega)
        right
        rw [henc44]
        omega
      rw [hdj] at hf
      exact hf.2
    have hjbound : ∀ j, j < cnt - 1 → 104 + j * stride + 4 ≤
        t.data.length - 4 := by
      intro j hj
      have hmul : (j + 1) * stride ≤ (cnt - 1) * stride :=
        Nat.mul_le_mul_right _ (by omega)
      have hexp : j * stride + stride = (j + 1) * stride := by ring
      omega
    rw [seekFromEnd_neg4 t5 (by omega)] at hreb
    simp only [Option.some_bind] at hreb
    simp only [readN] at hreb
    rw [show List.take 4 (List.drop (t5.data.length - 4) t5.data)
      = slice t5.data (t5.data.length - 4) 4 from rfl] at hreb
    by_cases hz : slice t5.data (t5.data.length - 4) 4 = [0, 0, 0, 0]
    case pos =>
      rw [if_pos hz] at hreb
      simp only [Option.pure_def, Option.some.injEq] at hreb
      subst hreb
      dsimp only
      refine ⟨hlen5, ?_, hfieldsT, ?_⟩
      · rw [hslice24]
        exact decode_encode32 _ _ (by norm_num)
      · rw [← hlen5]
        exact hz
    case neg =>
      rw [if_neg hz] at hreb
      rw [seekFromEnd_neg4 _ (by dsimp only; omega)] at hreb
      dsimp only at hreb
      simp only [Option.some_bind] at hreb
      rw [write_i32_eq _ 0 (by norm_num) (by norm_num)] at hreb
      simp only [Option.some.injEq] at hreb
      subst hreb
      dsimp only
      rw [show (0 : Int).toNat = 0 from rfl, encode32_zero]
      have hlen112 : 112 ≤ t5.data.length := by omega
      have hlenw : (writeAt t5.data (t5.data.length - 4) [0, 0, 0, 0]).length
          = t5.data.length := by
        rw [writeAt_length]
        simp only [List.length_cons, List.length_nil]
        omega
      refine ⟨by rw [hlenw, hlen5], ?_, ?_, ?_⟩
      · have hd : slice (writeAt t5.data (t5.data.length - 4) [0, 0, 0, 0])
            24 4 = slice t5.data 24 4 := by
          apply slice_writeAt_disjoint _ _ _ (by omega)
          left
          omega
        rw [hd, hslice24]
        exact decode_encode32 _ _ (by norm_num)
      · intro j hj
        have hd : slice (writeAt t5.data (t5.data.length - 4) [0, 0, 0, 0])
            (104 + j * stride) 4 = slice t5.data (104 + j * stride) 4 := by
          apply slice_writeAt_disjoint _ _ _ (by omega)
          left
          have := hjbound j hj
          omega
        rw [hd]
        exact hfieldsT j hj
      · rw [← hlen5]
        have h4 := slice_writeAt_self t5.data (t5.data.length - 4)
          [0, 0, 0, 0] (by simp only [List.length_cons, List.length_nil]; omega)
        simp only [List.length_cons, List.length_nil] at h4
        exact h4

theorem readRecord_offset (rel : Nat) (t t' : EndianReader) (pos : Nat)
    (tag : List Nat) (size : Nat) (off : Int)
    (hb : pos + 12 ≤ t.data.length)
    (hrec : readRecord rel t pos = some (tag, size, off, t')) :
    (decodeBytes t.endian (slice t.data (pos + 8) 4) = 0 → off = 0) ∧
    (decodeBytes t.endian (slice t.data (pos + 8) 4) ≠ 0 →
      off = (decodeBytes t.endian (slice t.data (pos + 8) 4) : Int) - rel) := by
  rw [readRecord] at hrec
  by_cases hall : (tagBytesAt (seekAbs t pos)).all (fun b => b < 128) = true
  case neg =>
    rw [read_tag_none _ hall] at hrec
    simp at hrec
  case pos =>
    rw [read_tag_eq (seekAbs t pos) (by dsimp only [seekAbs]; omega) hall]
      at hrec
    simp only [Option.bind_eq_bind, Option.some_bind, seekAbs] at hrec
    rw [read_i32_eq { data := t.data, pos := pos + 4, endian := t.endian }
      (by dsimp only; omega)] at hrec
    simp only [Option.some_bind] at hrec
    rw [show pos + 4 + 4 = pos + 8 from by omega] at hrec
    rw [read_i32_eq { data := t.data, pos := pos + 8, endian := t.endian }
      (by dsimp only; omega)] at hrec
    simp only [Option.some_bind, Option.pure_def, Option.some.injEq] at hrec
    obtain ⟨-, -, hoff, -⟩ := Prod.mk.injEq .. ▸ hrec
    constructor
    · intro hz
      simp [hz]
    · intro hnz
      rw [if_pos hnz]

def testMovieOut : EndianReader :=
  { data := [88, 70, 73, 82] ++ List.replicate 20 0 ++ [44, 0, 0, 0] ++
      List.replicate 26 0 ++ [4, 0] ++ List.replicate 4 0 ++ [2, 0, 0, 0] ++
      List.replicate 20 0 ++ [16, 0, 0, 0] ++ List.replicate 16 0 ++
      [32, 0, 0, 0] ++ [0, 0, 0, 0] ++ [0, 0, 0, 0],
    pos := 116, endian := Endian.little }

/-- Claim C2: for every sub-file taken down the movie-rebase path, rebasing
overwrites the sub-file's pointer-to-map field at offset 0x18 with the
standard map position 0x2C, subtracts the sub-file's own relocation base
(read from offset 0x54) from each nonzero stored offset of its internal map
records and writes the corrected value back in place, and ensures the final
4 bytes of the sub-file are zero, overwriting them with zero if they are not. -/
theorem C2_movie_rebase (t t' : EndianReader) (stride cnt rel : Nat)
    (hs : decodeBytes t.endian (slice t.data 0x36 2) = stride)
    (hc : decodeBytes t.endian (slice t.data 0x3C 4) = cnt)
    (hr : decodeBytes t.endian (slice t.data 0x54 4) = rel)
    (hstride : 4 ≤ stride)
    (hrecs : 0x68 + (cnt - 1) * stride + 8 ≤ t.data.length)
    (hreb : rebase t = some t') :
    t'.data.length = t.data.length ∧
    decodeBytes t.endian (slice t'.data 0x18 4) = 0x2C ∧
    (∀ j, j < cnt - 1 →
      decodeBytes t.endian (slice t.data (0x68 + j * stride) 4) ≠ 0 →
      decodeBytes t.endian (slice t'.data (0x68 + j * stride) 4) =
        decodeBytes t.endian (slice t.data (0x68 + j * stride) 4) - rel) ∧
    slice t'.data (t.data.length - 4) 4 = [0, 0, 0, 0] := by
  obtain ⟨h1, h2, h3, h4⟩ :=
    rebase_success_shape t t' stride cnt rel hs hc hr hstride hrecs hreb
  refine ⟨h1, h2, ?_, h4⟩
  intro j hj hnz
  have h := h3 j hj
  rw [if_neg hnz] at h
  rw [h]
  have hlt := decodeBytes_slice_lt t.endian t.data (0x68 + j * stride)
  exact decode_encode32 _ _ (by omega)

set_option maxRecDepth 4000 in
/-- Witness for C2 at a concrete movie sub-file. -/
theorem C2_movie_rebase_witness :
    testMovieOut.data.length = testMovie.length ∧
    decodeBytes Endian.little (slice testMovieOut.data 0x18 4) = 0x2C ∧
    (∀ j, j < 2 - 1 →
      decodeBytes Endian.little (slice testMovie (0x68 + j * 4) 4) ≠ 0 →
      decodeBytes Endian.little (slice testMovieOut.data (0x68 + j * 4) 4) =
        decodeBytes Endian.little (slice testMovie (0x68 + j * 4) 4) - 16) ∧
    slice testMovieOut.data (testMovie.length - 4) 4 = [0, 0, 0, 0] :=
  C2_movie_rebase { data := testMovie, pos := 12, endian := Endian.little }
    testMovieOut 4 2 16 (by decide) (by decide) (by decide) (by decide)
    (by decide) (by decide)

/-- The outcome of the internal relocation loop alone on the concrete movie. -/
def testLoopOut : EndianReader :=
  { data := [88, 70, 73, 82] ++ List.replicate 50 0 ++ [4, 0] ++
      List.replicate 4 0 ++ [2, 0, 0, 0] ++ List.replicate 20 0 ++
      [16, 0, 0, 0] ++ List.replicate 16 0 ++ [32, 0, 0, 0] ++ [0, 0, 0, 0]
      ++ [1, 0, 0, 0],
    pos := 108, endian := Endian.little }

/-- A parent map record whose stored offset field is zero. -/
def testParentRec : List Nat :=
  [101, 101, 114, 102, 1, 0, 0, 0, 0, 0, 0, 0, 9, 9, 9, 9]

/-- Claim C4: in every offset correction, both in the parent map walk and in
the internal rebasing of a movie sub-file, a stored offset of zero is never
altered, while every nonzero stored offset has the applicable relocation base
subtracted. -/
theorem C4_zero_offset_preserved :
    (∀ (rel : Nat) (t t' : EndianReader) (pos : Nat) (tag : List Nat)
        (size : Nat) (off : Int),
      pos + 12 ≤ t.data.length →
      readRecord rel t pos = some (tag, size, off, t') →
      (decodeBytes t.endian (slice t.data (pos + 8) 4) = 0 → off = 0) ∧
      (decodeBytes t.endian (slice t.data (pos + 8) 4) ≠ 0 →
        off = (decodeBytes t.endian (slice t.data (pos + 8) 4) : Int)
          - rel)) ∧
    (∀ (stride rel k : Nat) (t t' : EndianReader),
      4 ≤ stride →
      rebaseLoop stride rel k 0 t = some t' →
      ∀ j, j < k →
        (decodeBytes t.endian (slice t.data (0x68 + j * stride) 4) = 0 →
          slice t'.data (0x68 + j * stride) 4 =
            slice t.data (0x68 + j * stride) 4) ∧
        (decodeBytes t.endian (slice t.data (0x68 + j * stride) 4) ≠ 0 →
          slice t'.data (0x68 + j * stride) 4 =
            encode32 t.endian
              (decodeBytes t.endian (slice t.data (0x68 + j * stride) 4)
                - rel))) := by
  constructor
  · exact fun rel t t' pos tag size off hb hrec =>
      readRecord_offset rel t t' pos tag size off hb hrec
  · intro stride rel k t t' hstride hloop j hj
    obtain ⟨-, -, hfields, -⟩ :=
      rebaseLoop_some stride rel hstride k 0 t t' hloop
    have h := (hfields j hj).2
    simp only [Nat.zero_add] at h
    constructor
    · intro hz
      rw [if_pos hz] at h
      exact h
    · intro hnz
      rw [if_neg hnz] at h
      exact h

set_option maxRecDepth 4000 in
/-- Witness for C4: a zero stored offset in the parent walk stays zero, and
a nonzero internal record offset is rebased by the loop. -/
theorem C4_zero_offset_preserved_witness :
    ((decodeBytes Endian.little (slice testParentRec (0 + 8) 4) = 0 →
        (0 : Int) = 0) ∧
      (decodeBytes Endian.little (slice testParentRec (0 + 8) 4) ≠ 0 →
        (0 : Int) =
          (decodeBytes Endian.little (slice testParentRec (0 + 8) 4) : Int)
            - 5)) ∧
    ((decodeBytes Endian.little (slice testMovie (0x68 + 0 * 4) 4) = 0 →
        slice testLoopOut.data (0x68 + 0 * 4) 4 =
          slice testMovie (0x68 + 0 * 4) 4) ∧
      (decodeBytes Endian.little (slice testMovie (0x68 + 0 * 4) 4) ≠ 0 →
        slice testLoopOut.data (0x68 + 0 * 4) 4 =
          encode32 Endian.little
            (decodeBytes Endian.little (slice testMovie (0x68 + 0 * 4) 4)
              - 16))) :=
  ⟨C4_zero_offset_preserved.1 5
      { data := testParentRec, pos := 0, endian := Endian.little }
      { data := testParentRec, pos := 12, endian := Endian.little }
      0 [102, 114, 101, 101] 9 0 (by decide) (by decide),
    C4_zero_offset_preserved.2 4 16 1
      { data := testMovie, pos := 0, endian := Endian.little }
      testLoopOut (by decide) (by decide) 0 (by decide)⟩

theorem seekTo_nonneg (t : EndianReader) (p : Int) (h : 0 ≤ p) :
    seekTo t p = some { t with pos := p.toNat } := by
  rw [seekTo, if_neg (by omega)]

/-- Claim C3: for every extracted pair, the number of bytes sliced out for
the sub-file equals the 32-bit size field read 4 bytes into the sub-file's
own header plus 8, and this self-declared size is used regardless of the
advisory size recorded in the resource map entry. -/
theorem C3_subfile_size (t : EndianReader) (off : Int) (s v : Nat)
    (hoff : 0 ≤ off)
    (hhead : off.toNat + 8 ≤ t.data.length)
    (hv : decodeBytes t.endian (slice t.data (off.toNat + 4) 4) = v)
    (hfit : off.toNat + (v + 8) ≤ t.data.length) :
    (∀ s1 s2, extractFile t (off, s1) = extractFile t (off, s2)) ∧
    extractFile t (off, s) = some (slice t.data off.toNat (v + 8)) ∧
    (slice t.data off.toNat (v + 8)).length = v + 8 := by
  refine ⟨fun s1 s2 => rfl, ?_, ?_⟩
  · rw [extractFile]
    rw [seekTo_nonneg t (off + 4) (by omega)]
    rw [show (off + 4).toNat = off.toNat + 4 from by omega]
    simp only [Option.bind_eq_bind, Option.some_bind]
    rw [read_i32_eq _ (by dsimp only; omega)]
    simp only [Option.some_bind]
    rw [hv]
    rw [seekTo_nonneg _ off hoff]
    simp only [Option.some_bind]
    rfl
  · rw [slice_length]
    omega

/-- A 10-byte buffer whose sub-file header declares a payload size of 2. -/
def testExtract : List Nat := [88, 70, 73, 82, 2, 0, 0, 0, 9, 9]

/-- Witness for C3 at a concrete buffer: the slice has the self-declared
length 2 + 8 = 10 for any advisory size. -/
theorem C3_subfile_size_witness :
    (∀ s1 s2, extractFile
        { data := testExtract, pos := 0, endian := Endian.little } (0, s1) =
      extractFile
        { data := testExtract, pos := 0, endian := Endian.little } (0, s2)) ∧
    extractFile { data := testExtract, pos := 0, endian := Endian.little }
      (0, 5) = some (slice testExtract 0 (2 + 8)) ∧
    (slice testExtract 0 (2 + 8)).length = 2 + 8 :=
  C3_subfile_size { data := testExtract, pos := 0, endian := Endian.little }
    0 5 2 (by decide) (by decide) (by decide) (by decide)

theorem read_i32_some_eq (t : EndianReader) (v : Nat) (t' : EndianReader)
    (h : read_i32 t = some (v, t')) :
    t' = { t with pos := t.pos + 4 } := by
  simp only [read_i32, readN] at h
  split at h
  case isTrue hl =>
    cases h
    rw [hl]
  case isFalse hl =>
    exact absurd h (by simp)

/-- Claim C5: for every dictionary blob, if the 32-bit TOC length read under
the archive's nominal endianness exceeds 0x10000, the decoder flips the
endianness, seeks back to the start of the stream and re-reads the length, so
the rest of the blob is decoded under the flipped byte order; if the length
does not exceed 0x10000 the nominal endianness is kept. -/
theorem C5_dict_endian_flip (sjis : List Nat → Option (List Nat))
    (d : List Nat) (e : Endian) (toc1 toc2 : Nat) (r1 r2 : EndianReader)
    (h1 : read_i32 { data := d.drop 8, pos := 0, endian := e } =
      some (toc1, r1))
    (h2 : read_i32 { data := d.drop 8, pos := 0, endian := flipE e } =
      some (toc2, r2)) :
    (toc1 > 0x10000 →
      parse_dict sjis d e = parseDictRest sjis d (flipE e) toc2) ∧
    (toc1 ≤ 0x10000 →
      parse_dict sjis d e = parseDictRest sjis d e toc1) ∧
    (toc1 > 0x10000 → toc2 ≤ 0x10000 →
      parse_dict sjis d e = parse_dict sjis d (flipE e)) := by
  have hr1 := read_i32_some_eq _ _ _ h1
  subst hr1
  refine ⟨?_, ?_, ?_⟩
  · intro hgt
    rw [parse_dict]
    rw [h1]
    simp only [Option.bind_eq_bind, Option.some_bind]
    rw [if_pos hgt]
    dsimp only [seekAbs]
    rw [h2]
    simp only [Option.some_bind]
  · intro hle
    rw [parse_dict]
    rw [h1]
    simp only [Option.bind_eq_bind, Option.some_bind]
    rw [if_neg (by omega)]
  · intro hgt hle
    rw [parse_dict]
    rw [h1]
    simp only [Option.bind_eq_bind, Option.some_bind]
    rw [if_pos hgt]
    dsimp only [seekAbs]
    rw [h2]
    simp only [Option.some_bind]
    rw [parse_dict]
    rw [h2]
    simp only [Option.bind_eq_bind, Option.some_bind]
    rw [if_neg (by omega)]

/-- Witness for C5: a TOC length of 0x20000 under little endianness re-reads
as 0x200 under big endianness, and the blob decodes identically either way. -/
theorem C5_dict_endian_flip_witness :
    (0x20000 > 0x10000 →
      parse_dict sjisNone testDict Endian.little =
        parseDictRest sjisNone testDict (flipE Endian.little) 0x200) ∧
    (0x20000 ≤ 0x10000 →
      parse_dict sjisNone testDict Endian.little =
        parseDictRest sjisNone testDict Endian.little 0x20000) ∧
    (0x20000 > 0x10000 → 0x200 ≤ 0x10000 →
      parse_dict sjisNone testDict Endian.little =
        parse_dict sjisNone testDict (flipE Endian.little)) :=
  C5_dict_endian_flip sjisNone testDict Endian.little 0x20000 0x200
    { data := testDict.drop 8, pos := 4, endian := Endian.little }
    { data := testDict.drop 8, pos := 4, endian := Endian.big }
    (by decide) (by decide)

/-- Claim C6: each dictionary name's bytes are decoded by trying, in order,
UTF-8, then the legacy single-byte Western code page (cp1252), then
Shift-JIS (the external codec `sjis`); the first succeeding decoding is the
one appended to the name list, and exhausting all three fallbacks is fatal
(the Shift-JIS failure is uncaught). -/
theorem C6_decode_fallback_chain (sjis : List Nat → Option (List Nat))
    (bs : List Nat) :
    (∀ s, utf8Decode bs = some s → decodeName sjis bs = some s) ∧
    (utf8Decode bs = none → ∀ s, cp1252Decode bs = some s →
      decodeName sjis bs = some s) ∧
    (utf8Decode bs = none → cp1252Decode bs = none →
      decodeName sjis bs = sjis bs) ∧
    (∀ (k : Nat) (t : EndianReader) (acc : List (List Nat)) (len : Nat)
        (t1 : EndianReader),
      read_i32 t = some (len, t1) →
      len = ((readN t1 len).1).length →
      ∀ dec, decodeName sjis (readN t1 len).1 = some dec →
        readNames sjis (k + 1) t acc =
          readNames sjis k ((readN (readN t1 len).2 ((4 - len % 4) % 4)).2)
            (acc ++ [dec])) := by
  refine ⟨?_, ?_, ?_, ?_⟩
  · intro s h
    rw [decodeName, h]
  · intro h1 s h2
    rw [decodeName, h1, h2]
  · intro h1 h2
    rw [decodeName, h1, h2]
  · intro k t acc len t1 hlen heq dec hdec
    rw [readNames, hlen]
    simp only [Option.bind_eq_bind, Option.some_bind]
    rw [if_pos heq, hdec]
    simp only [Option.some_bind]

/-- Witness for C6: 0xE9 is invalid UTF-8 but decodes via cp1252; 0x81 is
invalid under both UTF-8 and cp1252 and falls through to the Shift-JIS codec
(whose failure is fatal); and a decoded name is appended by the name loop. -/
theorem C6_decode_fallback_chain_witness :
    decodeName sjisNone [233] = some [233] ∧
    decodeName sjisNone [129] = sjisNone [129] ∧
    readNames sjisNone 1
      { data := [1, 0, 0, 0, 97, 0, 0, 0], pos := 0, endian := Endian.little }
      [] =
      readNames sjisNone 0
        { data := [1, 0, 0, 0, 97, 0, 0, 0], pos := 8,
          endian := Endian.little } ([] ++ [[97]]) :=
  ⟨(C6_decode_fallback_chain sjisNone [233]).2.1 (by decide) [233] (by decide),
   (C6_decode_fallback_chain sjisNone [129]).2.2.1 (by decide) (by decide),
   (C6_decode_fallback_chain sjisNone [97]).2.2.2 0
     { data := [1, 0, 0, 0, 97, 0, 0, 0], pos := 0, endian := Endian.little }
     [] 1
     { data := [1, 0, 0, 0, 97, 0, 0, 0], pos := 4, endian := Endian.little }
     (by decide) (by decide) [97] (by decide)⟩

/-- Claim C7: for an original name "movie.dir" paired with a sub-file of
type MV93 the output name is "movie.dxr"; for "MOVIE.DIR" with the same type
it is "MOVIE.DXR" — the replacement extension inherits the case of the
original extension. -/
theorem C7_extension_case :
    deriveOutputName (s2c ("movie.dir")) (s2c ("MV93")) =
      some (s2c ("movie.dxr")) ∧
    deriveOutputName (s2c ("MOVIE.DIR")) (s2c ("MV93")) =
      some (s2c ("MOVIE.DXR")) := by
  decide

/-- Counterexample to C9 as stated: "intro" with the MV93 movie type becomes
"i.dxr", not "i.dir" — the defaulted extension is still remapped by type. -/
theorem C9_counterexample :
    deriveOutputName (s2c ("intro")) (s2c ("MV93")) = some (s2c ("i.dxr")) ∧
    s2c ("i.dxr") ≠ s2c ("i.dir") := by
  decide

theorem map_slash_eq_self (xs : List Nat) (h : 47 ∉ xs) :
    xs.map (fun c => if c = 47 then 95 else c) = xs := by
  induction xs with
  | nil => rfl
  | cons a l ih =>
    rw [List.mem_cons, not_or] at h
    rw [List.map_cons]
    rw [if_neg (fun hc => h.1 hc.symm), ih h.2]

/-- Claim C9 (amended): for every stripped output name of length at least 4
whose fourth-from-last character is not a period, which contains no slash
and whose deleted four-character tail consists of ASCII characters (the
range on which the casing model is exact) and is not all-uppercase, the
namer deletes the final four characters and appends the derived extension,
which is the defaulted ".dir" when the sub-file type is neither MV93 nor
FGDM: "intro" becomes "i.dir" rather than "intro.dir". -/
theorem C9_default_extension (name fileType : List Nat)
    (h1 : 4 ≤ name.length)
    (h2 : name.getD (name.length - 4) 0 ≠ 46)
    (h3 : fileType ≠ s2c ("MV93"))
    (h4 : fileType ≠ s2c ("FGDM"))
    (_hascii : ∀ c ∈ name.drop (name.length - 4), c < 128)
    (h5 : pyIsUpper (name.drop (name.length - 4)) = false)
    (h6 : 47 ∉ name) :
    deriveOutputName name fileType =
      some (name.take (name.length - 4) ++ s2c (".dir")) := by
  simp only [deriveOutputName]
  rw [if_neg (by omega)]
  rw [if_neg h2]
  rw [show extension_mapping (s2c (".dir")) =
    some (s2c (".dxr"), s2c (".dcr")) from rfl]
  dsimp only
  rw [if_neg h3, if_neg h4, h5]
  rw [if_neg (by simp)]
  congr 1
  apply map_slash_eq_self
  intro hmem
  rw [List.mem_append] at hmem
  rcases hmem with hmem | hmem
  · exact h6 (List.take_subset _ _ hmem)
  · revert hmem
    decide

/-- Witness for C9 at "intro" with a non-movie type tag: result "i.dir". -/
theorem C9_default_extension_witness :
    deriveOutputName (s2c ("intro")) (s2c ("AAAA")) =
      some ((s2c ("intro")).take ((s2c ("intro")).length - 4) ++
        s2c (".dir")) ∧
    (s2c ("intro")).take ((s2c ("intro")).length - 4) ++ s2c (".dir") =
      s2c ("i.dir") :=
  ⟨C9_default_extension (s2c ("intro")) (s2c ("AAAA")) (by decide)
    (by decide) (by decide) (by decide) (by decide) (by decide) (by decide),
   by decide⟩

/-- Claim C10: for every stripped output name shorter than 4 characters, the
extension derivation indexes the fourth-from-last character with no length
guard, so the program fails with an out-of-range index error (modelled as
`none`) instead of writing an output file. -/
theorem C10_short_name_index_error (name fileType : List Nat)
    (h : name.length < 4) :
    deriveOutputName name fileType = none := by
  simp only [deriveOutputName]
  rw [if_pos h]

/-- Witness for C10: a 3-character name. -/
theorem C10_short_name_index_error_witness :
    deriveOutputName (s2c ("abc")) (s2c ("MV93")) = none :=
  C10_short_name_index_error (s2c ("abc")) (s2c ("MV93")) (by decide)

/-- Claim C8: for every sub-file whose detected type tag is FGDM or FGDC,
the bytes written to the output file are exactly the extracted sub-file
bytes, unchanged — no rewriting of any kind is applied to them. -/
theorem C8_raw_passthrough (inflate : List Nat → Option (List Nat))
    (bytes tg : List Nat)
    (h1 : subfileType bytes = some tg)
    (h2 : tg = s2c ("FGDM") ∨ tg = s2c ("FGDC")) :
    processSubfile inflate bytes = some (some bytes) := by
  simp only [subfileType, Option.bind_eq_bind] at h1
  simp only [processSubfile, Option.bind_eq_bind]
  rcases hri : read_ident
    { data := bytes, pos := 0, endian := Endian.unknown } with ⟨e0, t1⟩
  rw [hri] at h1
  dsimp only at h1 ⊢
  cases hrt : read_tag (seekAbs t1 8) with
  | none =>
    rw [hrt] at h1
    simp at h1
  | some p =>
    rw [hrt] at h1
    simp only [Option.some_bind, Option.pure_def, Option.some.injEq] at h1
    simp only [Option.some_bind]
    rw [if_pos (by rcases h2 with h2 | h2 <;> rw [h1, h2] <;> simp)]
    rfl

/-- Witness for C8: a concrete FGDM-tagged sub-file passes through intact. -/
theorem C8_raw_passthrough_witness :
    processSubfile sjisNone testFgdm = some (some testFgdm) :=
  C8_raw_passthrough sjisNone testFgdm (s2c ("FGDM")) (by decide)
    (Or.inl rfl)

/-- Claim C1 (amended): extraction pairs name[i] with file[i] positionally
for all i below both lengths; when the name and File counts differ, the
program silently truncates the pairing to the shorter list (`zip`) and no
error is raised. -/
theorem C1_pairing (sjis : List Nat → Option (List Nat)) (data : List Nat)
    (names : List (List Nat)) (files : List (Int × Nat))
    (h : mainWalk sjis data = some (names, files)) :
    mainPairs sjis data = some (file_table names files) ∧
    (file_table names files).length = min names.length files.length ∧
    (∀ i (h1 : i < names.length) (h2 : i < files.length),
      (file_table names files)[i]? =
        some (names.get ⟨i, h1⟩, files.get ⟨i, h2⟩)) := by
  refine ⟨?_, ?_, ?_⟩
  · rw [mainPairs, h]
    rfl
  · simp [file_table]
  · intro i h1 h2
    rw [file_table]
    apply List.getElem?_zip_eq_some.mpr
    constructor
    · simp [List.getElem?_eq_getElem, h1, List.get_eq_getElem]
    · simp [List.getElem?_eq_getElem, h2, List.get_eq_getElem]

set_option maxRecDepth 8000 in
/-- Counterexample to C1 as stated: on a concrete archive whose map walk
yields two decoded names but one File entry, the program produces a silently
truncated single pair and no error is raised. -/
theorem C1_counterexample :
    mainWalk sjisNone testArchive = some ([[97], [98]], [(256, 8)]) ∧
    ([[97], [98]] : List (List Nat)).length = 2 ∧
    ([(256, 8)] : List (Int × Nat)).length = 1 ∧
    mainPairs sjisNone testArchive = some [([97], (256, 8))] := by
  exact ⟨by decide, by decide, by decide, by decide⟩

set_option maxRecDepth 8000 in
/-- Witness for C1 at the concrete archive. -/
theorem C1_pairing_witness :
    mainPairs sjisNone testArchive =
      some (file_table [[97], [98]] [(256, 8)]) ∧
    (file_table [[97], [98]] [(256, 8)]).length =
      min ([[97], [98]] : List (List Nat)).length
        ([(256, 8)] : List (Int × Nat)).length ∧
    (∀ i (h1 : i < ([[97], [98]] : List (List Nat)).length)
        (h2 : i < ([(256, 8)] : List (Int × Nat)).length),
      (file_table [[97], [98]] [(256, 8)])[i]? =
        some (([[97], [98]] : List (List Nat)).get ⟨i, h1⟩,
          ([(256, 8)] : List (Int × Nat)).get ⟨i, h2⟩)) :=
  C1_pairing sjisNone testArchive [[97], [98]] [(256, 8)] (by decide)

end Shock
